import Mathlib

/-!
# UnityAspectLock — verification of the aspect-lock algorithm

Shallow embedding of `src/UnityAspectLock.cpp`.  The C++ side works on Win32
`RECT`s (four `LONG` edges, modelled as `Int`), a `float` aspect ratio
(modelled by exact rationals `ℚ`; the file's arithmetic is the real content
of the algorithm), and the process-wide globals `g_hwnd`, `g_installed`,
`g_aspect` (modelled as an explicit `LockState` record, threaded through the
exported entry points).  OS calls (`EnumWindows`-based window lookup and
`SetWindowSubclass`) are modelled as explicit inputs to `Install`: the
located window as an `Option Nat` and the attach outcome as a `Bool`.  The
number of active subclass attachments, which lives inside the OS, is tracked
in a `World` record alongside the lock state.
-/

/-- Win32 `RECT`: left/top/right/bottom edges. -/
structure RECT where
  left : Int
  top : Int
  right : Int
  bottom : Int
deriving DecidableEq, Repr

/-- Width of a rect, `right - left` (as computed by `ApplyAspect`). -/
def RECT.width (r : RECT) : Int := r.right - r.left

/-- Height of a rect, `bottom - top` (as computed by `ApplyAspect`). -/
def RECT.height (r : RECT) : Int := r.bottom - r.top

/- The `WMSZ_*` drag-edge constants from `winuser.h`, the values the
`WM_SIZING` message delivers in `wParam`. -/

def WMSZ_LEFT : Nat := 1
def WMSZ_RIGHT : Nat := 2
def WMSZ_TOP : Nat := 3
def WMSZ_TOPLEFT : Nat := 4
def WMSZ_TOPRIGHT : Nat := 5
def WMSZ_BOTTOM : Nat := 6
def WMSZ_BOTTOMLEFT : Nat := 7
def WMSZ_BOTTOMRIGHT : Nat := 8

/-- The eight drag edge/corner values of the `WMSZ_*` enumeration. -/
def dragEdges : List Nat :=
  [WMSZ_LEFT, WMSZ_RIGHT, WMSZ_TOP, WMSZ_TOPLEFT, WMSZ_TOPRIGHT,
   WMSZ_BOTTOM, WMSZ_BOTTOMLEFT, WMSZ_BOTTOMRIGHT]

/-- The four corner values of the `WMSZ_*` enumeration. -/
def cornerEdges : List Nat :=
  [WMSZ_TOPLEFT, WMSZ_TOPRIGHT, WMSZ_BOTTOMLEFT, WMSZ_BOTTOMRIGHT]

/-- `RoundToInt` wraps `std::lround`: round half away from zero. -/
def RoundToInt (v : ℚ) : Int :=
  if 0 ≤ v then ⌊v + 1/2⌋ else ⌈v - 1/2⌉

/-- The process-wide globals of `UnityAspectLock.cpp`:
`g_hwnd` (window handles modelled as `Nat`, `nullptr` as `none`),
`g_installed`, and `g_aspect`. -/
structure LockState where
  g_hwnd : Option Nat
  g_installed : Bool
  g_aspect : ℚ
deriving DecidableEq, Repr

/-- The globals' static initializers: `g_hwnd = nullptr`,
`g_installed = false`, `g_aspect = 9.0f / 16.0f`. -/
def initialLockState : LockState :=
  { g_hwnd := none, g_installed := false, g_aspect := 9/16 }

/-- Lock state plus the OS-side count of active subclass attachments
(the spec's "active attachment"; the OS subclass chain itself is outside
the repository, so only its cardinality is tracked: a successful
`SetWindowSubclass` adds one, `RemoveWindowSubclass` removes it). -/
structure World where
  lock : LockState
  attachCount : Nat
deriving DecidableEq, Repr

/-- The `setHeightFromWidth` lambda in `ApplyAspect`: derive a height from a
width through the aspect ratio, keeping the current height `h` if the
derived value rounds to a non-positive number. -/
def setHeightFromWidth (aspect : ℚ) (h : Int) (newW : Int) : Int :=
  let newH := RoundToInt ((newW : ℚ) / aspect)
  if newH > 0 then newH else h

/-- The `setWidthFromHeight` lambda in `ApplyAspect`: derive a width from a
height through the aspect ratio, keeping the current width `w` if the
derived value rounds to a non-positive number. -/
def setWidthFromHeight (aspect : ℚ) (w : Int) (newH : Int) : Int :=
  let newW := RoundToInt ((newH : ℚ) * aspect)
  if newW > 0 then newW else w

/-- `ApplyAspect(RECT* r, WPARAM edge)`, with the global `g_aspect` passed
explicitly and the in-place mutation of `*r` modelled by returning the new
rect.  (The C++ `!r` null-pointer guard has no counterpart: the rect is
passed by value here.) -/
def ApplyAspect (aspect : ℚ) (r : RECT) (edge : Nat) : RECT :=
  if aspect ≤ 0 then r
  else
    let w := r.right - r.left
    let h := r.bottom - r.top
    if w ≤ 0 ∨ h ≤ 0 then r
    else if edge = WMSZ_TOP ∨ edge = WMSZ_BOTTOM then
      -- Horizontal edge drag: user changes height -> derive width
      let newH := h
      let newW := setWidthFromHeight aspect w newH
      -- Keep left fixed, adjust right
      { r with right := r.left + newW }
    else if edge = WMSZ_LEFT ∨ edge = WMSZ_RIGHT then
      -- Vertical edge drag: user changes width -> derive height
      let newW := w
      let newH := setHeightFromWidth aspect h newW
      -- Keep top fixed, adjust bottom
      { r with bottom := r.top + newH }
    else if edge = WMSZ_TOPLEFT ∨ edge = WMSZ_TOPRIGHT ∨
            edge = WMSZ_BOTTOMLEFT ∨ edge = WMSZ_BOTTOMRIGHT then
      -- Corner drags: decide width-driven vs height-driven by delta magnitude
      let idealHFromW := (w : ℚ) / aspect
      let idealWFromH := (h : ℚ) * aspect
      let errH := |idealHFromW - (h : ℚ)|
      let errW := |idealWFromH - (w : ℚ)|
      if errH < errW then
        let newH := setHeightFromWidth aspect h w
        if edge = WMSZ_TOPLEFT ∨ edge = WMSZ_TOPRIGHT then
          { r with top := r.bottom - newH }       -- top moves, bottom anchored
        else
          { r with bottom := r.top + newH }       -- bottom moves, top anchored
      else
        let newW := setWidthFromHeight aspect w h
        if edge = WMSZ_TOPLEFT ∨ edge = WMSZ_BOTTOMLEFT then
          { r with left := r.right - newW }       -- left moves, right anchored
        else
          { r with right := r.left + newW }       -- right moves, left anchored
    else r

/-- The `WM_SIZING` message number. -/
def WM_SIZING : Nat := 0x0214

/-- The `WM_SIZING` arm of `SubclassProc`: on `WM_SIZING` the candidate rect
(`lParam`) is corrected through `ApplyAspect` with the drag edge (`wParam`)
and `TRUE` is returned; any other message is forwarded (rect untouched,
`Bool` result `false` standing for the forward to `DefSubclassProc`). -/
def SubclassProc (aspect : ℚ) (msg : Nat) (wParam : Nat) (r : RECT) :
    RECT × Bool :=
  if msg = WM_SIZING then (ApplyAspect aspect r wParam, true) else (r, false)

/-- `UnityAspectLock_Install(float aspectWidth, float aspectHeight)`.
The two OS interactions are explicit inputs: `foundWindow` is the result of
`FindMainWindowForCurrentProcess` (`none` for `nullptr`) and `attachOk` the
success of `SetWindowSubclass`.  Returns the updated world and the `int`
result. -/
def UnityAspectLock_Install (w : World) (aspectWidth aspectHeight : ℚ)
    (foundWindow : Option Nat) (attachOk : Bool) : World × Int :=
  if w.lock.g_installed then (w, 1)
  else if aspectWidth ≤ 0 ∨ aspectHeight ≤ 0 then (w, 0)
  else
    -- g_aspect = aspectWidth / aspectHeight; g_hwnd = FindMainWindow...
    let st := { w.lock with g_aspect := aspectWidth / aspectHeight,
                            g_hwnd := foundWindow }
    match foundWindow with
    | none => ({ w with lock := st }, 0)
    | some _ =>
      if attachOk then
        ({ lock := { st with g_installed := true },
           attachCount := w.attachCount + 1 }, 1)
      else ({ w with lock := st }, 0)

/-- `UnityAspectLock_Uninstall()`: detaches (decrementing the attachment
count) when installed with a non-null `g_hwnd`, then clears the globals;
a no-op when not installed. -/
def UnityAspectLock_Uninstall (w : World) : World :=
  if w.lock.g_installed = false then w
  else
    let n := match w.lock.g_hwnd with
      | some _ => w.attachCount - 1
      | none => w.attachCount
    { lock := { w.lock with g_hwnd := none, g_installed := false },
      attachCount := n }

/-- `UnityAspectLock_IsInstalled()`. -/
def UnityAspectLock_IsInstalled (w : World) : Int :=
  if w.lock.g_installed then 1 else 0

/-! ## Basic facts about the rounding function -/

/-- Round-half-away-from-zero is within a half of its argument. -/
theorem abs_roundToInt_sub_le (x : ℚ) : |(RoundToInt x : ℚ) - x| ≤ 1/2 := by
  unfold RoundToInt
  split_ifs with h
  · rw [abs_le]
    constructor
    · have h1 := Int.lt_floor_add_one (x + 1/2)
      linarith
    · have h2 := Int.floor_le (x + 1/2)
      linarith
  · rw [abs_le]
    constructor
    · have h1 := Int.le_ceil (x - 1/2)
      linarith
    · have h2 := Int.ceil_lt_add_one (x - 1/2)
      linarith

/-! ## Branch evaluation lemmas for `ApplyAspect` -/

/-- On a Top/Bottom drag with positive aspect and dimensions, `ApplyAspect`
rewrites only the right edge, to `left + setWidthFromHeight`. -/
theorem applyAspect_eval_TB (a : ℚ) (ha : 0 < a) (r : RECT)
    (hw : 0 < r.width) (hh : 0 < r.height) (e : Nat)
    (he : e = WMSZ_TOP ∨ e = WMSZ_BOTTOM) :
    ApplyAspect a r e =
      { r with right := r.left + setWidthFromHeight a r.width r.height } := by
  have h1 : ¬ a ≤ 0 := not_le.mpr ha
  have h2 : ¬ (r.right - r.left ≤ 0 ∨ r.bottom - r.top ≤ 0) := by
    simp only [RECT.width] at hw
    simp only [RECT.height] at hh
    omega
  simp only [ApplyAspect, if_neg h1, if_neg h2, if_pos he, RECT.width,
    RECT.height]

/-- On a Left/Right drag with positive aspect and dimensions, `ApplyAspect`
rewrites only the bottom edge, to `top + setHeightFromWidth`. -/
theorem applyAspect_eval_LR (a : ℚ) (ha : 0 < a) (r : RECT)
    (hw : 0 < r.width) (hh : 0 < r.height) (e : Nat)
    (he : e = WMSZ_LEFT ∨ e = WMSZ_RIGHT) :
    ApplyAspect a r e =
      { r with bottom := r.top + setHeightFromWidth a r.height r.width } := by
  have h1 : ¬ a ≤ 0 := not_le.mpr ha
  have h2 : ¬ (r.right - r.left ≤ 0 ∨ r.bottom - r.top ≤ 0) := by
    simp only [RECT.width] at hw
    simp only [RECT.height] at hh
    omega
  have h3 : ¬ (e = WMSZ_TOP ∨ e = WMSZ_BOTTOM) := by
    rcases he with h | h <;> subst h <;> decide
  simp only [ApplyAspect, if_neg h1, if_neg h2, if_neg h3, if_pos he,
    RECT.width, RECT.height]

/-- On a corner drag with `errH < errW` (width-driven), `ApplyAspect` moves
the top edge for the Top corners and the bottom edge for the Bottom corners,
the other three edges staying put. -/
theorem applyAspect_eval_corner_W (a : ℚ) (ha : 0 < a) (r : RECT)
    (hw : 0 < r.width) (hh : 0 < r.height) (e : Nat) (he : e ∈ cornerEdges)
    (hd : |(r.width : ℚ) / a - (r.height : ℚ)| <
          |(r.height : ℚ) * a - (r.width : ℚ)|) :
    ApplyAspect a r e =
      if e = WMSZ_TOPLEFT ∨ e = WMSZ_TOPRIGHT then
        { r with top := r.bottom - setHeightFromWidth a r.height r.width }
      else
        { r with bottom := r.top + setHeightFromWidth a r.height r.width } := by
  have h1 : ¬ a ≤ 0 := not_le.mpr ha
  have h2 : ¬ (r.right - r.left ≤ 0 ∨ r.bottom - r.top ≤ 0) := by
    simp only [RECT.width] at hw
    simp only [RECT.height] at hh
    omega
  simp only [RECT.width, RECT.height] at hd
  simp only [cornerEdges, List.mem_cons, List.not_mem_nil, or_false] at he
  have hTB : ¬ (e = WMSZ_TOP ∨ e = WMSZ_BOTTOM) := by
    rcases he with h | h | h | h <;> subst h <;> decide
  have hLR : ¬ (e = WMSZ_LEFT ∨ e = WMSZ_RIGHT) := by
    rcases he with h | h | h | h <;> subst h <;> decide
  have hC : e = WMSZ_TOPLEFT ∨ e = WMSZ_TOPRIGHT ∨
      e = WMSZ_BOTTOMLEFT ∨ e = WMSZ_BOTTOMRIGHT := he
  simp only [ApplyAspect, if_neg h1, if_neg h2, if_neg hTB, if_neg hLR,
    if_pos hC, if_pos hd, RECT.width, RECT.height]

/-- On a corner drag with `¬ (errH < errW)` (height-driven), `ApplyAspect`
moves the left edge for the Left corners and the right edge for the Right
corners, the other three edges staying put. -/
theorem applyAspect_eval_corner_H (a : ℚ) (ha : 0 < a) (r : RECT)
    (hw : 0 < r.width) (hh : 0 < r.height) (e : Nat) (he : e ∈ cornerEdges)
    (hd : ¬ (|(r.width : ℚ) / a - (r.height : ℚ)| <
             |(r.height : ℚ) * a - (r.width : ℚ)|)) :
    ApplyAspect a r e =
      if e = WMSZ_TOPLEFT ∨ e = WMSZ_BOTTOMLEFT then
        { r with left := r.right - setWidthFromHeight a r.width r.height }
      else
        { r with right := r.left + setWidthFromHeight a r.width r.height } := by
  have h1 : ¬ a ≤ 0 := not_le.mpr ha
  have h2 : ¬ (r.right - r.left ≤ 0 ∨ r.bottom - r.top ≤ 0) := by
    simp only [RECT.width] at hw
    simp only [RECT.height] at hh
    omega
  simp only [RECT.width, RECT.height] at hd
  simp only [cornerEdges, List.mem_cons, List.not_mem_nil, or_false] at he
  have hTB : ¬ (e = WMSZ_TOP ∨ e = WMSZ_BOTTOM) := by
    rcases he with h | h | h | h <;> subst h <;> decide
  have hLR : ¬ (e = WMSZ_LEFT ∨ e = WMSZ_RIGHT) := by
    rcases he with h | h | h | h <;> subst h <;> decide
  have hC : e = WMSZ_TOPLEFT ∨ e = WMSZ_TOPRIGHT ∨
      e = WMSZ_BOTTOMLEFT ∨ e = WMSZ_BOTTOMRIGHT := he
  simp only [ApplyAspect, if_neg h1, if_neg h2, if_neg hTB, if_neg hLR,
    if_pos hC, if_neg hd, RECT.width, RECT.height]

/-! ## Evaluation lemmas for `UnityAspectLock_Install` -/

/-- Installing while already installed is the identity on the world and
returns 1, whatever the arguments or the OS outcomes. -/
theorem install_installed_eq (w : World) (hi : w.lock.g_installed = true)
    (aw ah : ℚ) (f : Option Nat) (b : Bool) :
    UnityAspectLock_Install w aw ah f b = (w, 1) := by
  unfold UnityAspectLock_Install
  rw [if_pos hi]

/-- A fresh install with positive arguments, a found window and a
successful attach: the resulting globals and the returned 1. -/
theorem install_fresh_eq (w : World) (aw ah : ℚ)
    (hni : w.lock.g_installed = false) (haw : 0 < aw) (hah : 0 < ah)
    (n : Nat) :
    UnityAspectLock_Install w aw ah (some n) true =
      ({ lock := { g_hwnd := some n, g_installed := true,
                   g_aspect := aw / ah },
         attachCount := w.attachCount + 1 }, 1) := by
  unfold UnityAspectLock_Install
  have h2 : ¬ (aw ≤ 0 ∨ ah ≤ 0) := by
    push_neg
    exact ⟨haw, hah⟩
  simp [hni, h2]

/-! ## The claims -/

/-- C8: whenever the candidate rect's current width or height is
non-positive, or the configured aspect ratio is non-positive, `ApplyAspect`
leaves the rect unmodified (and, being `void`, reports no error). -/
theorem applyAspect_nonpositive_guard (a : ℚ) (r : RECT) (e : Nat)
    (h : r.width ≤ 0 ∨ r.height ≤ 0 ∨ a ≤ 0) :
    ApplyAspect a r e = r := by
  by_cases ha : a ≤ 0
  · simp only [ApplyAspect, if_pos ha]
  · have hwh : r.right - r.left ≤ 0 ∨ r.bottom - r.top ≤ 0 := by
      simp only [RECT.width, RECT.height] at h
      tauto
    simp only [ApplyAspect, if_neg ha, if_pos hwh]

/-- Witness for C8 at a concrete zero-width rect. -/
theorem applyAspect_nonpositive_guard_witness :
    ApplyAspect (16/9) (RECT.mk 0 0 0 100) WMSZ_RIGHT = RECT.mk 0 0 0 100 :=
  applyAspect_nonpositive_guard (16/9) (RECT.mk 0 0 0 100) WMSZ_RIGHT
    (Or.inl (by decide))

/-- C2 counterexample: with the lock already installed, `Install` called
with a non-positive aspect component returns 1, not the 0 the claim
requires. -/
theorem install_nonpositive_when_installed_cex :
    (UnityAspectLock_Install
      { lock := { g_hwnd := some 1, g_installed := true, g_aspect := 16/9 },
        attachCount := 1 } (-1) 1 none false).2 ≠ 0 := by
  rw [install_installed_eq]
  · decide
  · rfl

/-- C2 amended: `Install` with a non-positive aspect component never alters
the state; it returns 0 when not already installed, and 1 (the idempotent
early return, which precedes the argument check) when already installed. -/
theorem install_nonpositive_state_preserved (w : World) (aw ah : ℚ)
    (f : Option Nat) (b : Bool) (h : aw ≤ 0 ∨ ah ≤ 0) :
    (UnityAspectLock_Install w aw ah f b).1 = w ∧
    (UnityAspectLock_Install w aw ah f b).2 =
      (if w.lock.g_installed then 1 else 0) := by
  unfold UnityAspectLock_Install
  by_cases hi : w.lock.g_installed = true
  · simp [hi]
  · simp [hi, h]

/-- Witness for C2 (amended) at `aspectWidth = 0` in the fresh state. -/
theorem install_nonpositive_state_preserved_witness :
    (UnityAspectLock_Install ⟨initialLockState, 0⟩ 0 9 none false).1 =
      ⟨initialLockState, 0⟩ ∧
    (UnityAspectLock_Install ⟨initialLockState, 0⟩ 0 9 none false).2 = 0 := by
  have h := install_nonpositive_state_preserved ⟨initialLockState, 0⟩ 0 9
    none false (Or.inl le_rfl)
  simpa [initialLockState] using h

/-- C3 counterexample: a successful `Install(16, 9)` from the fresh state
returns 1 but stores `16/9 = aspectWidth/aspectHeight`, not the claimed
`aspectHeight/aspectWidth = 9/16`. -/
theorem install_aspect_store_cex :
    (UnityAspectLock_Install ⟨initialLockState, 0⟩ 16 9 (some 1) true).2 = 1 ∧
    (UnityAspectLock_Install ⟨initialLockState, 0⟩ 16 9
        (some 1) true).1.lock.g_aspect ≠ 9/16 := by
  rw [install_fresh_eq ⟨initialLockState, 0⟩ 16 9 rfl (by norm_num)
    (by norm_num) 1]
  norm_num

/-- C3 amended: after a successful install the stored process-wide aspect
ratio is `aspectWidth / aspectHeight` (width-over-height, so multiplying it
against a height yields a width). -/
theorem install_stores_width_over_height (w : World) (aw ah : ℚ)
    (hni : w.lock.g_installed = false) (haw : 0 < aw) (hah : 0 < ah)
    (n : Nat) :
    (UnityAspectLock_Install w aw ah (some n) true).2 = 1 ∧
    (UnityAspectLock_Install w aw ah (some n) true).1.lock.g_aspect =
      aw / ah := by
  rw [install_fresh_eq w aw ah hni haw hah n]
  exact ⟨rfl, rfl⟩

/-- Witness for C3 (amended) at `Install(16, 9)` from the fresh state. -/
theorem install_stores_width_over_height_witness :
    (UnityAspectLock_Install ⟨initialLockState, 0⟩ 16 9 (some 1) true).2 = 1 ∧
    (UnityAspectLock_Install ⟨initialLockState, 0⟩ 16 9
        (some 1) true).1.lock.g_aspect = 16 / 9 :=
  install_stores_width_over_height ⟨initialLockState, 0⟩ 16 9 rfl
    (by norm_num) (by norm_num) 1

/-- C9: `Install` while already installed returns 1 and changes nothing;
consequently two consecutive valid installs from the fresh state both
return 1 and leave exactly one active attachment. -/
theorem install_idempotent_when_installed (w : World)
    (hi : w.lock.g_installed = true) (aw ah : ℚ) (f : Option Nat) (b : Bool) :
    UnityAspectLock_Install w aw ah f b = (w, 1) ∧
    (∀ (w0 : World) (aw0 ah0 : ℚ), w0.lock.g_installed = false →
      w0.attachCount = 0 → 0 < aw0 → 0 < ah0 → ∀ n : Nat,
      (UnityAspectLock_Install w0 aw0 ah0 (some n) true).2 = 1 ∧
      (UnityAspectLock_Install w0 aw0 ah0 (some n) true).1.attachCount = 1 ∧
      (UnityAspectLock_Install
        (UnityAspectLock_Install w0 aw0 ah0 (some n) true).1
        aw ah f b).2 = 1 ∧
      (UnityAspectLock_Install
        (UnityAspectLock_Install w0 aw0 ah0 (some n) true).1
        aw ah f b).1.attachCount = 1) := by
  refine ⟨install_installed_eq w hi aw ah f b, ?_⟩
  intro w0 aw0 ah0 hni hc haw0 hah0 n
  rw [install_fresh_eq w0 aw0 ah0 hni haw0 hah0 n]
  rw [install_installed_eq _ rfl aw ah f b]
  simp [hc]

/-- Witness for C9: a concrete installed world, then the fresh double
install at `(16, 9)` and `(4, 3)`. -/
theorem install_idempotent_when_installed_witness :
    (UnityAspectLock_Install
      { lock := { g_hwnd := some 7, g_installed := true, g_aspect := 4/3 },
        attachCount := 1 } 4 3 (some 7) true) =
      ({ lock := { g_hwnd := some 7, g_installed := true, g_aspect := 4/3 },
         attachCount := 1 }, 1) ∧
    (UnityAspectLock_Install ⟨initialLockState, 0⟩ 16 9
        (some 7) true).2 = 1 ∧
    (UnityAspectLock_Install ⟨initialLockState, 0⟩ 16 9
        (some 7) true).1.attachCount = 1 ∧
    (UnityAspectLock_Install
      (UnityAspectLock_Install ⟨initialLockState, 0⟩ 16 9 (some 7) true).1
      4 3 (some 7) true).2 = 1 ∧
    (UnityAspectLock_Install
      (UnityAspectLock_Install ⟨initialLockState, 0⟩ 16 9 (some 7) true).1
      4 3 (some 7) true).1.attachCount = 1 := by
  have h := install_idempotent_when_installed
    { lock := { g_hwnd := some 7, g_installed := true, g_aspect := 4/3 },
      attachCount := 1 } rfl 4 3 (some 7) true
  exact ⟨h.1, h.2 ⟨initialLockState, 0⟩ 16 9 rfl rfl (by norm_num)
    (by norm_num) 7⟩

/-- C10: a failed install from the uninstalled state with positive
arguments is not atomic: the stored aspect ratio has already been
overwritten with `aspectWidth/aspectHeight`; when the window lookup fails
the stored handle is null, and when the attach fails the stored handle
retains the found window; the installed flag stays false and 0 is
returned. -/
theorem install_failure_residual (w : World)
    (hni : w.lock.g_installed = false) (aw ah : ℚ)
    (haw : 0 < aw) (hah : 0 < ah) :
    (∀ b : Bool,
      (UnityAspectLock_Install w aw ah none b).2 = 0 ∧
      (UnityAspectLock_Install w aw ah none b).1.lock.g_aspect = aw / ah ∧
      (UnityAspectLock_Install w aw ah none b).1.lock.g_installed = false ∧
      (UnityAspectLock_Install w aw ah none b).1.lock.g_hwnd = none) ∧
    (∀ n : Nat,
      (UnityAspectLock_Install w aw ah (some n) false).2 = 0 ∧
      (UnityAspectLock_Install w aw ah (some n) false).1.lock.g_aspect =
        aw / ah ∧
      (UnityAspectLock_Install w aw ah (some n) false).1.lock.g_installed =
        false ∧
      (UnityAspectLock_Install w aw ah (some n) false).1.lock.g_hwnd =
        some n) := by
  have h2 : ¬ (aw ≤ 0 ∨ ah ≤ 0) := by
    push_neg
    exact ⟨haw, hah⟩
  constructor
  · intro b
    unfold UnityAspectLock_Install
    simp [hni, h2]
  · intro n
    unfold UnityAspectLock_Install
    simp [hni, h2]

/-- Witness for C10 at `Install(16, 9)` from the fresh state, with the
lookup failing and with the attach failing on window 5. -/
theorem install_failure_residual_witness :
    ((UnityAspectLock_Install ⟨initialLockState, 0⟩ 16 9 none false).2 = 0 ∧
     (UnityAspectLock_Install ⟨initialLockState, 0⟩ 16 9
        none false).1.lock.g_aspect = 16 / 9 ∧
     (UnityAspectLock_Install ⟨initialLockState, 0⟩ 16 9
        none false).1.lock.g_installed = false ∧
     (UnityAspectLock_Install ⟨initialLockState, 0⟩ 16 9
        none false).1.lock.g_hwnd = none) ∧
    ((UnityAspectLock_Install ⟨initialLockState, 0⟩ 16 9 (some 5) false).2
        = 0 ∧
     (UnityAspectLock_Install ⟨initialLockState, 0⟩ 16 9
        (some 5) false).1.lock.g_aspect = 16 / 9 ∧
     (UnityAspectLock_Install ⟨initialLockState, 0⟩ 16 9
        (some 5) false).1.lock.g_installed = false ∧
     (UnityAspectLock_Install ⟨initialLockState, 0⟩ 16 9
        (some 5) false).1.lock.g_hwnd = some 5) := by
  have h := install_failure_residual ⟨initialLockState, 0⟩ rfl 16 9
    (by norm_num) (by norm_num)
  exact ⟨h.1 false, h.2 5⟩

/-! ## Record-update and lambda helper lemmas -/

/-- Updating `right` with its own value is the identity. -/
theorem RECT.set_right_self (r : RECT) (x : Int) (h : x = r.right) :
    ({ r with right := x } : RECT) = r := by
  cases r
  subst h
  rfl

/-- Updating `bottom` with its own value is the identity. -/
theorem RECT.set_bottom_self (r : RECT) (x : Int) (h : x = r.bottom) :
    ({ r with bottom := x } : RECT) = r := by
  cases r
  subst h
  rfl

/-- Updating `top` with its own value is the identity. -/
theorem RECT.set_top_self (r : RECT) (x : Int) (h : x = r.top) :
    ({ r with top := x } : RECT) = r := by
  cases r
  subst h
  rfl

/-- Updating `left` with its own value is the identity. -/
theorem RECT.set_left_self (r : RECT) (x : Int) (h : x = r.left) :
    ({ r with left := x } : RECT) = r := by
  cases r
  subst h
  rfl

/-- `setHeightFromWidth` when the derived height rounds positive. -/
theorem setHeightFromWidth_pos (a : ℚ) (h w : Int)
    (hp : RoundToInt ((w : ℚ) / a) > 0) :
    setHeightFromWidth a h w = RoundToInt ((w : ℚ) / a) := by
  simp only [setHeightFromWidth, if_pos hp]

/-- `setHeightFromWidth` when the derived height rounds non-positive:
the current height is kept. -/
theorem setHeightFromWidth_nonpos (a : ℚ) (h w : Int)
    (hp : ¬ RoundToInt ((w : ℚ) / a) > 0) :
    setHeightFromWidth a h w = h := by
  simp only [setHeightFromWidth, if_neg hp]

/-- `setWidthFromHeight` when the derived width rounds positive. -/
theorem setWidthFromHeight_pos (a : ℚ) (w h : Int)
    (hp : RoundToInt ((h : ℚ) * a) > 0) :
    setWidthFromHeight a w h = RoundToInt ((h : ℚ) * a) := by
  simp only [setWidthFromHeight, if_pos hp]

/-- `setWidthFromHeight` when the derived width rounds non-positive:
the current width is kept. -/
theorem setWidthFromHeight_nonpos (a : ℚ) (w h : Int)
    (hp : ¬ RoundToInt ((h : ℚ) * a) > 0) :
    setWidthFromHeight a w h = w := by
  simp only [setWidthFromHeight, if_neg hp]

/-- C4: on a Top or Bottom drag with positive dimensions and ratio whose
derived width rounds positive, `ApplyAspect` keeps the given height, anchors
left, top and bottom, and sets `right = left + round(H * r)`. -/
theorem applyAspect_top_bottom_drag (a : ℚ) (ha : 0 < a) (r : RECT)
    (hw : 0 < r.width) (hh : 0 < r.height) (e : Nat)
    (he : e = WMSZ_TOP ∨ e = WMSZ_BOTTOM)
    (hp : RoundToInt ((r.height : ℚ) * a) > 0) :
    ApplyAspect a r e =
      { r with right := r.left + RoundToInt ((r.height : ℚ) * a) } ∧
    (ApplyAspect a r e).height = r.height := by
  rw [applyAspect_eval_TB a ha r hw hh e he,
    setWidthFromHeight_pos a r.width r.height hp]
  exact ⟨rfl, rfl⟩

/-- Witness for C4: the spec's example, bottom-edge drag of (0,0,1600,900)
to height 800 at ratio 16:9 yields (0,0,1422,800). -/
theorem applyAspect_top_bottom_drag_witness :
    ApplyAspect (16/9) (RECT.mk 0 0 1600 800) WMSZ_BOTTOM =
      RECT.mk 0 0 1422 800 := by
  have hr : RoundToInt (((RECT.mk 0 0 1600 800).height : ℚ) * (16/9)) =
      1422 := by
    norm_num [RoundToInt, RECT.height]
  rw [(applyAspect_top_bottom_drag (16/9) (by norm_num)
    (RECT.mk 0 0 1600 800) (by decide) (by decide) WMSZ_BOTTOM
    (Or.inr rfl) (by rw [hr]; norm_num)).1, hr]
  decide

/-- C5: on a corner drag, the algorithm compares `errH = |W/r - H|` against
`errW = |H*r - W|`; strictly smaller `errH` makes it width-driven (height
derived from the kept width), otherwise it is height-driven (width derived
from the kept height). -/
theorem applyAspect_corner_tiebreak (a : ℚ) (ha : 0 < a) (r : RECT)
    (hw : 0 < r.width) (hh : 0 < r.height) (e : Nat) (he : e ∈ cornerEdges)
    (hWp : RoundToInt ((r.width : ℚ) / a) > 0)
    (hHp : RoundToInt ((r.height : ℚ) * a) > 0) :
    (|(r.width : ℚ) / a - (r.height : ℚ)| <
        |(r.height : ℚ) * a - (r.width : ℚ)| →
      (ApplyAspect a r e).width = r.width ∧
      (ApplyAspect a r e).height = RoundToInt ((r.width : ℚ) / a)) ∧
    (¬ |(r.width : ℚ) / a - (r.height : ℚ)| <
        |(r.height : ℚ) * a - (r.width : ℚ)| →
      (ApplyAspect a r e).height = r.height ∧
      (ApplyAspect a r e).width = RoundToInt ((r.height : ℚ) * a)) := by
  constructor
  · intro hd
    rw [applyAspect_eval_corner_W a ha r hw hh e he hd,
      setHeightFromWidth_pos a r.height r.width hWp]
    split_ifs with hcase
    · refine ⟨rfl, ?_⟩
      simp only [RECT.height]
      omega
    · refine ⟨rfl, ?_⟩
      simp only [RECT.height]
      omega
  · intro hd
    rw [applyAspect_eval_corner_H a ha r hw hh e he hd,
      setWidthFromHeight_pos a r.width r.height hHp]
    split_ifs with hcase
    · refine ⟨rfl, ?_⟩
      simp only [RECT.width]
      omega
    · refine ⟨rfl, ?_⟩
      simp only [RECT.width]
      omega

/-- Witness for C5: the spec's corner example, W=1600, H=850, r=16:9 is
width-driven and yields height 900. -/
theorem applyAspect_corner_tiebreak_witness :
    (ApplyAspect (16/9) (RECT.mk 0 0 1600 850) WMSZ_TOPLEFT).width = 1600 ∧
    (ApplyAspect (16/9) (RECT.mk 0 0 1600 850) WMSZ_TOPLEFT).height =
      900 := by
  have hr : RoundToInt (((RECT.mk 0 0 1600 850).width : ℚ) / (16/9)) =
      900 := by
    norm_num [RoundToInt, RECT.width]
  have h := (applyAspect_corner_tiebreak (16/9) (by norm_num)
    (RECT.mk 0 0 1600 850) (by decide) (by decide) WMSZ_TOPLEFT (by decide)
    (by rw [hr]; norm_num)
    (by norm_num [RoundToInt, RECT.height])).1
    (by
      norm_num [RECT.width, RECT.height]
      rw [abs_of_nonneg (by norm_num)]
      norm_num)
  obtain ⟨h1, h2⟩ := h
  exact ⟨h1, by rw [h2, hr]⟩

/-- C6: on a corner drag only the edges named by the corner move: width-
driven corrections move top (Top corners, bottom anchored) or bottom
(Bottom corners, top anchored); height-driven corrections move left (Left
corners, right anchored) or right (Right corners, left anchored); the other
three edges are exactly as given. -/
theorem applyAspect_corner_anchors (a : ℚ) (ha : 0 < a) (r : RECT)
    (hw : 0 < r.width) (hh : 0 < r.height) :
    (|(r.width : ℚ) / a - (r.height : ℚ)| <
        |(r.height : ℚ) * a - (r.width : ℚ)| →
      (ApplyAspect a r WMSZ_TOPLEFT =
        { r with top := r.bottom - setHeightFromWidth a r.height r.width } ∧
       ApplyAspect a r WMSZ_TOPRIGHT =
        { r with top := r.bottom - setHeightFromWidth a r.height r.width } ∧
       ApplyAspect a r WMSZ_BOTTOMLEFT =
        { r with bottom := r.top + setHeightFromWidth a r.height r.width } ∧
       ApplyAspect a r WMSZ_BOTTOMRIGHT =
        { r with bottom := r.top + setHeightFromWidth a r.height r.width })) ∧
    (¬ |(r.width : ℚ) / a - (r.height : ℚ)| <
        |(r.height : ℚ) * a - (r.width : ℚ)| →
      (ApplyAspect a r WMSZ_TOPLEFT =
        { r with left := r.right - setWidthFromHeight a r.width r.height } ∧
       ApplyAspect a r WMSZ_BOTTOMLEFT =
        { r with left := r.right - setWidthFromHeight a r.width r.height } ∧
       ApplyAspect a r WMSZ_TOPRIGHT =
        { r with right := r.left + setWidthFromHeight a r.width r.height } ∧
       ApplyAspect a r WMSZ_BOTTOMRIGHT =
        { r with right := r.left + setWidthFromHeight a r.width r.height })) := by
  constructor
  · intro hd
    refine ⟨?_, ?_, ?_, ?_⟩ <;>
      rw [applyAspect_eval_corner_W a ha r hw hh _ (by decide) hd] <;>
      first
        | rw [if_pos (by decide)]
        | rw [if_neg (by decide)]
  · intro hd
    refine ⟨?_, ?_, ?_, ?_⟩ <;>
      rw [applyAspect_eval_corner_H a ha r hw hh _ (by decide) hd] <;>
      first
        | rw [if_pos (by decide)]
        | rw [if_neg (by decide)]

/-- Witness for C6: a width-driven TopLeft drag on (0,0,1600,850) moves only
the top edge; a height-driven TopLeft drag on the already-exact
(0,0,1600,900) recomputes only the left edge (here to its own value). -/
theorem applyAspect_corner_anchors_witness :
    ApplyAspect (16/9) (RECT.mk 0 0 1600 850) WMSZ_TOPLEFT =
      RECT.mk 0 (-50) 1600 850 ∧
    ApplyAspect (16/9) (RECT.mk 0 0 1600 900) WMSZ_TOPLEFT =
      RECT.mk 0 0 1600 900 := by
  have hset : setHeightFromWidth (16/9) (RECT.mk 0 0 1600 850).height
      (RECT.mk 0 0 1600 850).width = 900 := by
    norm_num [setHeightFromWidth, RoundToInt, RECT.width, RECT.height]
  have hsetW : setWidthFromHeight (16/9) (RECT.mk 0 0 1600 900).width
      (RECT.mk 0 0 1600 900).height = 1600 := by
    norm_num [setWidthFromHeight, RoundToInt, RECT.width, RECT.height]
  constructor
  · rw [((applyAspect_corner_anchors (16/9) (by norm_num)
      (RECT.mk 0 0 1600 850) (by decide) (by decide)).1
      (by
        norm_num [RECT.width, RECT.height]
        rw [abs_of_nonneg (by norm_num)]
        norm_num)).1, hset]
    decide
  · rw [((applyAspect_corner_anchors (16/9) (by norm_num)
      (RECT.mk 0 0 1600 900) (by decide) (by decide)).2
      (by norm_num [RECT.width, RECT.height])).1, hsetW]
    decide

/-- C7: whenever the derived dimension of the branch taken rounds to a
non-positive value, `ApplyAspect` leaves the rect entirely unmodified. -/
theorem applyAspect_degenerate_unchanged (a : ℚ) (ha : 0 < a) (r : RECT)
    (hw : 0 < r.width) (hh : 0 < r.height) :
    (¬ RoundToInt ((r.height : ℚ) * a) > 0 →
      ∀ e : Nat, e = WMSZ_TOP ∨ e = WMSZ_BOTTOM → ApplyAspect a r e = r) ∧
    (¬ RoundToInt ((r.width : ℚ) / a) > 0 →
      ∀ e : Nat, e = WMSZ_LEFT ∨ e = WMSZ_RIGHT → ApplyAspect a r e = r) ∧
    (∀ e : Nat, e ∈ cornerEdges →
      (|(r.width : ℚ) / a - (r.height : ℚ)| <
          |(r.height : ℚ) * a - (r.width : ℚ)| →
        ¬ RoundToInt ((r.width : ℚ) / a) > 0 → ApplyAspect a r e = r) ∧
      (¬ |(r.width : ℚ) / a - (r.height : ℚ)| <
          |(r.height : ℚ) * a - (r.width : ℚ)| →
        ¬ RoundToInt ((r.height : ℚ) * a) > 0 → ApplyAspect a r e = r)) := by
  refine ⟨?_, ?_, ?_⟩
  · intro hp e he
    rw [applyAspect_eval_TB a ha r hw hh e he,
      setWidthFromHeight_nonpos a r.width r.height hp]
    refine RECT.set_right_self r _ ?_
    simp only [RECT.width]
    omega
  · intro hp e he
    rw [applyAspect_eval_LR a ha r hw hh e he,
      setHeightFromWidth_nonpos a r.height r.width hp]
    refine RECT.set_bottom_self r _ ?_
    simp only [RECT.height]
    omega
  · intro e he
    constructor
    · intro hd hp
      rw [applyAspect_eval_corner_W a ha r hw hh e he hd,
        setHeightFromWidth_nonpos a r.height r.width hp]
      split_ifs with hcase
      · refine RECT.set_top_self r _ ?_
        simp only [RECT.height]
        omega
      · refine RECT.set_bottom_self r _ ?_
        simp only [RECT.height]
        omega
    · intro hd hp
      rw [applyAspect_eval_corner_H a ha r hw hh e he hd,
        setWidthFromHeight_nonpos a r.width r.height hp]
      split_ifs with hcase
      · refine RECT.set_left_self r _ ?_
        simp only [RECT.width]
        omega
      · refine RECT.set_right_self r _ ?_
        simp only [RECT.width]
        omega

/-- Witness for C7: at ratio 1:4 and rect (0,0,5,1) a bottom drag would
derive width round(1 * 1/4) = 0, so the rect is left unmodified. -/
theorem applyAspect_degenerate_unchanged_witness :
    ApplyAspect (1/4) (RECT.mk 0 0 5 1) WMSZ_BOTTOM = RECT.mk 0 0 5 1 :=
  (applyAspect_degenerate_unchanged (1/4) (by norm_num) (RECT.mk 0 0 5 1)
    (by decide) (by decide)).1 (by norm_num [RoundToInt, RECT.height])
    WMSZ_BOTTOM (Or.inr rfl)

/-! ## Ratio preservation -/

/-- A Top/Bottom correction that modified the rect leaves the width within
one pixel of `height * aspect`. -/
theorem ratio_after_TB (a : ℚ) (ha : 0 < a) (r : RECT)
    (hw : 0 < r.width) (hh : 0 < r.height) (e : Nat)
    (he : e = WMSZ_TOP ∨ e = WMSZ_BOTTOM) (hne : ApplyAspect a r e ≠ r) :
    |((ApplyAspect a r e).width : ℚ) -
      ((ApplyAspect a r e).height : ℚ) * a| ≤ 1 := by
  by_cases hp : RoundToInt ((r.height : ℚ) * a) > 0
  · rw [applyAspect_eval_TB a ha r hw hh e he,
      setWidthFromHeight_pos a r.width r.height hp]
    have h1 : ({ r with right :=
        r.left + RoundToInt ((r.height : ℚ) * a) } : RECT).width =
        RoundToInt ((r.height : ℚ) * a) := by
      simp only [RECT.width]
      omega
    have h2 : ({ r with right :=
        r.left + RoundToInt ((r.height : ℚ) * a) } : RECT).height =
        r.height := rfl
    rw [h1, h2]
    linarith [abs_roundToInt_sub_le ((r.height : ℚ) * a)]
  · exfalso
    apply hne
    rw [applyAspect_eval_TB a ha r hw hh e he,
      setWidthFromHeight_nonpos a r.width r.height hp]
    refine RECT.set_right_self r _ ?_
    simp only [RECT.width]
    omega

/-- A Left/Right correction that modified the rect leaves the height within
one pixel of `width / aspect`. -/
theorem ratio_after_LR (a : ℚ) (ha : 0 < a) (r : RECT)
    (hw : 0 < r.width) (hh : 0 < r.height) (e : Nat)
    (he : e = WMSZ_LEFT ∨ e = WMSZ_RIGHT) (hne : ApplyAspect a r e ≠ r) :
    |((ApplyAspect a r e).height : ℚ) -
      ((ApplyAspect a r e).width : ℚ) / a| ≤ 1 := by
  by_cases hp : RoundToInt ((r.width : ℚ) / a) > 0
  · rw [applyAspect_eval_LR a ha r hw hh e he,
      setHeightFromWidth_pos a r.height r.width hp]
    have h1 : ({ r with bottom :=
        r.top + RoundToInt ((r.width : ℚ) / a) } : RECT).height =
        RoundToInt ((r.width : ℚ) / a) := by
      simp only [RECT.height]
      omega
    have h2 : ({ r with bottom :=
        r.top + RoundToInt ((r.width : ℚ) / a) } : RECT).width =
        r.width := rfl
    rw [h1, h2]
    linarith [abs_roundToInt_sub_le ((r.width : ℚ) / a)]
  · exfalso
    apply hne
    rw [applyAspect_eval_LR a ha r hw hh e he,
      setHeightFromWidth_nonpos a r.height r.width hp]
    refine RECT.set_bottom_self r _ ?_
    simp only [RECT.height]
    omega

/-- A width-driven corner correction that modified the rect leaves the
height within one pixel of `width / aspect`. -/
theorem ratio_after_corner_W (a : ℚ) (ha : 0 < a) (r : RECT)
    (hw : 0 < r.width) (hh : 0 < r.height) (e : Nat) (he : e ∈ cornerEdges)
    (hd : |(r.width : ℚ) / a - (r.height : ℚ)| <
          |(r.height : ℚ) * a - (r.width : ℚ)|)
    (hne : ApplyAspect a r e ≠ r) :
    |((ApplyAspect a r e).height : ℚ) -
      ((ApplyAspect a r e).width : ℚ) / a| ≤ 1 := by
  by_cases hp : RoundToInt ((r.width : ℚ) / a) > 0
  · rw [applyAspect_eval_corner_W a ha r hw hh e he hd,
      setHeightFromWidth_pos a r.height r.width hp]
    split_ifs with hcase
    · have h1 : ({ r with top :=
          r.bottom - RoundToInt ((r.width : ℚ) / a) } : RECT).height =
          RoundToInt ((r.width : ℚ) / a) := by
        simp only [RECT.height]
        omega
      have h2 : ({ r with top :=
          r.bottom - RoundToInt ((r.width : ℚ) / a) } : RECT).width =
          r.width := rfl
      rw [h1, h2]
      linarith [abs_roundToInt_sub_le ((r.width : ℚ) / a)]
    · have h1 : ({ r with bottom :=
          r.top + RoundToInt ((r.width : ℚ) / a) } : RECT).height =
          RoundToInt ((r.width : ℚ) / a) := by
        simp only [RECT.height]
        omega
      have h2 : ({ r with bottom :=
          r.top + RoundToInt ((r.width : ℚ) / a) } : RECT).width =
          r.width := rfl
      rw [h1, h2]
      linarith [abs_roundToInt_sub_le ((r.width : ℚ) / a)]
  · exfalso
    apply hne
    rw [applyAspect_eval_corner_W a ha r hw hh e he hd,
      setHeightFromWidth_nonpos a r.height r.width hp]
    split_ifs with hcase
    · refine RECT.set_top_self r _ ?_
      simp only [RECT.height]
      omega
    · refine RECT.set_bottom_self r _ ?_
      simp only [RECT.height]
      omega

/-- A height-driven corner correction that modified the rect leaves the
width within one pixel of `height * aspect`. -/
theorem ratio_after_corner_H (a : ℚ) (ha : 0 < a) (r : RECT)
    (hw : 0 < r.width) (hh : 0 < r.height) (e : Nat) (he : e ∈ cornerEdges)
    (hd : ¬ |(r.width : ℚ) / a - (r.height : ℚ)| <
          |(r.height : ℚ) * a - (r.width : ℚ)|)
    (hne : ApplyAspect a r e ≠ r) :
    |((ApplyAspect a r e).width : ℚ) -
      ((ApplyAspect a r e).height : ℚ) * a| ≤ 1 := by
  by_cases hp : RoundToInt ((r.height : ℚ) * a) > 0
  · rw [applyAspect_eval_corner_H a ha r hw hh e he hd,
      setWidthFromHeight_pos a r.width r.height hp]
    split_ifs with hcase
    · have h1 : ({ r with left :=
          r.right - RoundToInt ((r.height : ℚ) * a) } : RECT).width =
          RoundToInt ((r.height : ℚ) * a) := by
        simp only [RECT.width]
        omega
      have h2 : ({ r with left :=
          r.right - RoundToInt ((r.height : ℚ) * a) } : RECT).height =
          r.height := rfl
      rw [h1, h2]
      linarith [abs_roundToInt_sub_le ((r.height : ℚ) * a)]
    · have h1 : ({ r with right :=
          r.left + RoundToInt ((r.height : ℚ) * a) } : RECT).width =
          RoundToInt ((r.height : ℚ) * a) := by
        simp only [RECT.width]
        omega
      have h2 : ({ r with right :=
          r.left + RoundToInt ((r.height : ℚ) * a) } : RECT).height =
          r.height := rfl
      rw [h1, h2]
      linarith [abs_roundToInt_sub_le ((r.height : ℚ) * a)]
  · exfalso
    apply hne
    rw [applyAspect_eval_corner_H a ha r hw hh e he hd,
      setWidthFromHeight_nonpos a r.width r.height hp]
    split_ifs with hcase
    · refine RECT.set_left_self r _ ?_
      simp only [RECT.width]
      omega
    · refine RECT.set_right_self r _ ?_
      simp only [RECT.width]
      omega

/-- Any rect modified by `ApplyAspect` on one of the eight drag edges agrees
with the target ratio up to one pixel in the derived dimension. -/
theorem applyAspect_ratio_core (a : ℚ) (ha : 0 < a) (r : RECT) (e : Nat)
    (he : e ∈ dragEdges) (hw : 0 < r.width) (hh : 0 < r.height)
    (hne : ApplyAspect a r e ≠ r) :
    |((ApplyAspect a r e).width : ℚ) -
      ((ApplyAspect a r e).height : ℚ) * a| ≤ 1 ∨
    |((ApplyAspect a r e).height : ℚ) -
      ((ApplyAspect a r e).width : ℚ) / a| ≤ 1 := by
  simp only [dragEdges, List.mem_cons, List.not_mem_nil, or_false] at he
  have corner : ∀ e' : Nat, e' ∈ cornerEdges → ApplyAspect a r e' ≠ r →
      |((ApplyAspect a r e').width : ℚ) -
        ((ApplyAspect a r e').height : ℚ) * a| ≤ 1 ∨
      |((ApplyAspect a r e').height : ℚ) -
        ((ApplyAspect a r e').width : ℚ) / a| ≤ 1 := by
    intro e' he' hne'
    by_cases hd : |(r.width : ℚ) / a - (r.height : ℚ)| <
        |(r.height : ℚ) * a - (r.width : ℚ)|
    · exact Or.inr (ratio_after_corner_W a ha r hw hh e' he' hd hne')
    · exact Or.inl (ratio_after_corner_H a ha r hw hh e' he' hd hne')
  rcases he with h | h | h | h | h | h | h | h
  · exact Or.inr (ratio_after_LR a ha r hw hh e (Or.inl h) hne)
  · exact Or.inr (ratio_after_LR a ha r hw hh e (Or.inr h) hne)
  · exact Or.inl (ratio_after_TB a ha r hw hh e (Or.inl h) hne)
  · exact corner e (by rw [h]; decide) hne
  · exact corner e (by rw [h]; decide) hne
  · exact Or.inl (ratio_after_TB a ha r hw hh e (Or.inr h) hne)
  · exact corner e (by rw [h]; decide) hne
  · exact corner e (by rw [h]; decide) hne

/-- C1: for positive (aspectWidth, aspectHeight) passed to a successful
install, every rect subsequently modified by the WM_SIZING handler, at any
of the eight drag edge/corner values, agrees with the target ratio
`aspectWidth/aspectHeight` up to one pixel of rounding error in the derived
dimension. -/
theorem installed_sizing_keeps_ratio (aw ah : ℚ) (haw : 0 < aw)
    (hah : 0 < ah) (w0 : World) (hni : w0.lock.g_installed = false)
    (n : Nat) :
    (UnityAspectLock_Install w0 aw ah (some n) true).2 = 1 ∧
    ∀ (r : RECT) (e : Nat), e ∈ dragEdges → 0 < r.width → 0 < r.height →
      (SubclassProc
        (UnityAspectLock_Install w0 aw ah (some n) true).1.lock.g_aspect
        WM_SIZING e r).1 ≠ r →
      |(((SubclassProc
          (UnityAspectLock_Install w0 aw ah (some n) true).1.lock.g_aspect
          WM_SIZING e r).1.width : ℚ) -
        ((SubclassProc
          (UnityAspectLock_Install w0 aw ah (some n) true).1.lock.g_aspect
          WM_SIZING e r).1.height : ℚ) * (aw / ah))| ≤ 1 ∨
      |(((SubclassProc
          (UnityAspectLock_Install w0 aw ah (some n) true).1.lock.g_aspect
          WM_SIZING e r).1.height : ℚ) -
        ((SubclassProc
          (UnityAspectLock_Install w0 aw ah (some n) true).1.lock.g_aspect
          WM_SIZING e r).1.width : ℚ) / (aw / ah))| ≤ 1 := by
  rw [install_fresh_eq w0 aw ah hni haw hah n]
  refine ⟨rfl, ?_⟩
  intro r e he hw hh hne
  exact applyAspect_ratio_core (aw / ah) (div_pos haw hah) r e he hw hh hne

/-- Witness for C1: install at 16:9 from the fresh state, then a right-edge
drag of (0,0,1600,850), which the handler corrects to (0,0,1600,900). -/
theorem installed_sizing_keeps_ratio_witness :
    (UnityAspectLock_Install ⟨initialLockState, 0⟩ 16 9 (some 3) true).2
      = 1 ∧
    (SubclassProc
      (UnityAspectLock_Install
        ⟨initialLockState, 0⟩ 16 9 (some 3) true).1.lock.g_aspect
      WM_SIZING WMSZ_RIGHT (RECT.mk 0 0 1600 850)).1 ≠
        RECT.mk 0 0 1600 850 ∧
    (|(((SubclassProc
        (UnityAspectLock_Install
          ⟨initialLockState, 0⟩ 16 9 (some 3) true).1.lock.g_aspect
        WM_SIZING WMSZ_RIGHT (RECT.mk 0 0 1600 850)).1.width : ℚ) -
      ((SubclassProc
        (UnityAspectLock_Install
          ⟨initialLockState, 0⟩ 16 9 (some 3) true).1.lock.g_aspect
        WM_SIZING WMSZ_RIGHT (RECT.mk 0 0 1600 850)).1.height : ℚ) *
        ((16 : ℚ) / 9))| ≤ 1 ∨
     |(((SubclassProc
        (UnityAspectLock_Install
          ⟨initialLockState, 0⟩ 16 9 (some 3) true).1.lock.g_aspect
        WM_SIZING WMSZ_RIGHT (RECT.mk 0 0 1600 850)).1.height : ℚ) -
      ((SubclassProc
        (UnityAspectLock_Install
          ⟨initialLockState, 0⟩ 16 9 (some 3) true).1.lock.g_aspect
        WM_SIZING WMSZ_RIGHT (RECT.mk 0 0 1600 850)).1.width : ℚ) /
        ((16 : ℚ) / 9))| ≤ 1) := by
  have h := installed_sizing_keeps_ratio 16 9 (by norm_num) (by norm_num)
    ⟨initialLockState, 0⟩ rfl 3
  have hval : (SubclassProc
      (UnityAspectLock_Install
        ⟨initialLockState, 0⟩ 16 9 (some 3) true).1.lock.g_aspect
      WM_SIZING WMSZ_RIGHT (RECT.mk 0 0 1600 850)).1 =
      RECT.mk 0 0 1600 900 := by
    rw [install_fresh_eq ⟨initialLockState, 0⟩ 16 9 rfl (by norm_num)
      (by norm_num) 3]
    simp only [SubclassProc, if_pos rfl]
    rw [applyAspect_eval_LR (16/9) (by norm_num) (RECT.mk 0 0 1600 850)
      (by decide) (by decide) WMSZ_RIGHT (Or.inr rfl)]
    have hs : setHeightFromWidth (16/9) (RECT.mk 0 0 1600 850).height
        (RECT.mk 0 0 1600 850).width = 900 := by
      norm_num [setHeightFromWidth, RoundToInt, RECT.width, RECT.height]
    rw [hs]
    decide
  have hne : (SubclassProc
      (UnityAspectLock_Install
        ⟨initialLockState, 0⟩ 16 9 (some 3) true).1.lock.g_aspect
      WM_SIZING WMSZ_RIGHT (RECT.mk 0 0 1600 850)).1 ≠
      RECT.mk 0 0 1600 850 := by
    rw [hval]
    decide
  exact ⟨h.1, hne, h.2 (RECT.mk 0 0 1600 850) WMSZ_RIGHT (by decide)
    (by decide) (by decide) hne⟩
